import Mathlib

set_option maxHeartbeats 1000000

namespace ERPC

/-! ## Byte-level helpers for the RAW protocol wire format (spec §4.1).

Bytes are modelled as natural numbers; validity predicates bound them
below 256 where the wire format requires it. -/

/-- Big-endian 4-byte encoding of a 32-bit unsigned integer (MSB first). -/
def uint32BE (n : Nat) : List Nat :=
  [n / 2 ^ 24 % 256, n / 2 ^ 16 % 256, n / 2 ^ 8 % 256, n % 256]

/-- Read a big-endian uint32 off the front of a byte list. -/
def readUInt32BE : List Nat → Option (Nat × List Nat)
  | b0 :: b1 :: b2 :: b3 :: rest =>
      some (b0 * 2 ^ 24 + b1 * 2 ^ 16 + b2 * 2 ^ 8 + b3, rest)
  | _ => none

/-- Read a single byte off the front of a byte list. -/
def readByte : List Nat → Option (Nat × List Nat)
  | [] => none
  | b :: rest => some (b, rest)

/-- Read exactly `n` bytes off the front of a byte list. -/
def readBytes (n : Nat) (l : List Nat) : Option (List Nat × List Nat) :=
  if n ≤ l.length then some (l.take n, l.drop n) else none

theorem readUInt32BE_uint32BE (n : Nat) (h : n < 2 ^ 32) (rest : List Nat) :
    readUInt32BE (uint32BE n ++ rest) = some (n, rest) := by
  simp only [uint32BE, List.cons_append, List.nil_append, readUInt32BE,
    Option.some.injEq, Prod.mk.injEq, and_true]
  omega

theorem readByte_cons (b : Nat) (rest : List Nat) :
    readByte (b :: rest) = some (b, rest) := rfl

theorem readBytes_append (xs rest : List Nat) :
    readBytes xs.length (xs ++ rest) = some (xs, rest) := by
  simp [readBytes, List.take_left, List.drop_left]

/-! ### ASCII decimal rendering of numbers (used by the stringified status). -/

/-- ASCII decimal digits of `n`, most significant first, prepended to `acc`.
The fuel argument (any bound above `n`) keeps the recursion structural. -/
def natToDecGo : Nat → Nat → List Nat → List Nat
  | 0, _, acc => acc
  | fuel + 1, n, acc =>
    if n < 10 then (n % 10 + 48) :: acc
    else natToDecGo fuel (n / 10) ((n % 10 + 48) :: acc)

/-- ASCII decimal digits of `n`, most significant first (at least one digit). -/
def natToDec (n : Nat) : List Nat := natToDecGo (n + 1) n []

/-- Fold ASCII decimal digit bytes back into a number. -/
def decFromBytes (l : List Nat) : Nat :=
  l.foldl (fun a d => a * 10 + (d - 48)) 0

theorem foldl_natToDecGo : ∀ (fuel n : Nat), n < fuel → ∀ acc : List Nat,
    (natToDecGo fuel n acc).foldl (fun a d => a * 10 + (d - 48)) 0
      = acc.foldl (fun a d => a * 10 + (d - 48)) n := by
  intro fuel
  induction fuel with
  | zero => intro n hn; omega
  | succ fuel ih =>
    intro n hn acc
    rw [natToDecGo]
    split
    · rw [List.foldl_cons]
      congr 1
      omega
    · rw [ih (n / 10) (by omega), List.foldl_cons]
      congr 1
      omega

theorem decFromBytes_natToDec (n : Nat) : decFromBytes (natToDec n) = n := by
  simp [decFromBytes, natToDec, foldl_natToDecGo (n + 1) n (by omega)]

theorem natToDecGo_mem : ∀ (fuel n : Nat), n < fuel → ∀ acc : List Nat,
    ∀ d ∈ natToDecGo fuel n acc, d ∈ acc ∨ (48 ≤ d ∧ d ≤ 57) := by
  intro fuel
  induction fuel with
  | zero => intro n hn; omega
  | succ fuel ih =>
    intro n hn acc d hd
    rw [natToDecGo] at hd
    split at hd
    · rcases List.mem_cons.mp hd with h | h
      · right; omega
      · left; exact h
    · rcases ih (n / 10) (by omega) _ d hd with h | h
      · rcases List.mem_cons.mp h with h2 | h2
        · right; omega
        · left; exact h2
      · right; exact h

theorem natToDec_digits (n : Nat) : ∀ d ∈ natToDec n, 48 ≤ d ∧ d ≤ 57 := by
  intro d hd
  rcases natToDecGo_mem (n + 1) n (by omega) [] d hd with h | h
  · simp at h
  · exact h

theorem natToDecGo_ne_nil : ∀ (fuel n : Nat), n < fuel → ∀ acc : List Nat,
    natToDecGo fuel n acc ≠ [] := by
  intro fuel
  induction fuel with
  | zero => intro n hn; omega
  | succ fuel ih =>
    intro n hn acc
    rw [natToDecGo]
    split
    · simp
    · exact ih (n / 10) (by omega) _

/-- ASCII decimal rendering of an integer: optional minus sign, then digits. -/
def intToDec (i : Int) : List Nat :=
  if i < 0 then 45 :: natToDec i.natAbs else natToDec i.natAbs

/-- Parse an optional minus sign followed by ASCII decimal digits. -/
def decToInt (l : List Nat) : Int :=
  match l with
  | [] => 0
  | d :: rest => if d = 45 then -(decFromBytes rest : Int) else (decFromBytes (d :: rest) : Int)

theorem natToDec_ne_nil (n : Nat) : natToDec n ≠ [] := by
  rw [natToDec]
  exact natToDecGo_ne_nil (n + 1) n (by omega) []

theorem decToInt_intToDec (i : Int) : decToInt (intToDec i) = i := by
  by_cases hneg : i < 0
  · rw [intToDec, if_pos hneg, decToInt, if_pos rfl, decFromBytes_natToDec]
    omega
  · simp only [intToDec, if_neg hneg]
    cases hcons : natToDec i.natAbs with
    | nil => exact absurd hcons (natToDec_ne_nil _)
    | cons d rest =>
      have hd : 48 ≤ d ∧ d ≤ 57 := by
        refine natToDec_digits i.natAbs d ?_
        rw [hcons]
        exact List.mem_cons_self d rest
      rw [decToInt, if_neg (by omega), ← hcons, decFromBytes_natToDec]
      omega

/-! ### Percent-encoding of the bytes that act as separators in the
query-style fields (`%`, `&`, `=`, `?`), spec §4.1 items 6–7. -/

/-- Upper-case hexadecimal digit byte for a value below 16. -/
def hexDigit (n : Nat) : Nat := if n < 10 then n + 48 else n + 55

/-- Value of a hexadecimal digit byte. -/
def unhexDigit (d : Nat) : Nat := if d < 58 then d - 48 else d - 55

/-- Percent-encode one byte, escaping the query separators. -/
def urlencByte (b : Nat) : List Nat :=
  if b = 37 ∨ b = 38 ∨ b = 61 ∨ b = 63 then [37, hexDigit (b / 16), hexDigit (b % 16)]
  else [b]

/-- Percent-encode a byte string. -/
def urlenc : List Nat → List Nat
  | [] => []
  | b :: rest => urlencByte b ++ urlenc rest

/-- Percent-decode a byte string. -/
def urldec : List Nat → List Nat
  | [] => []
  | b :: rest =>
    if b = 37 then
      match rest with
      | hi :: lo :: rest2 => (unhexDigit hi * 16 + unhexDigit lo) :: urldec rest2
      | _ => []
    else b :: urldec rest

theorem unhexDigit_hexDigit (x : Nat) (h : x < 16) : unhexDigit (hexDigit x) = x := by
  simp only [hexDigit, unhexDigit]
  split <;> split <;> omega

theorem urldec_esc (hi lo : Nat) (rest : List Nat) :
    urldec (37 :: hi :: lo :: rest) = (unhexDigit hi * 16 + unhexDigit lo) :: urldec rest := by
  rfl

theorem urldec_nonesc (b : Nat) (hb : b ≠ 37) (l : List Nat) :
    urldec (b :: l) = b :: urldec l := by
  match l with
  | hi :: lo :: rest2 => rw [urldec.eq_2, if_neg hb]
  | [] => rw [urldec.eq_3 b [] (by intro _ _ _ hx; cases hx), if_neg hb]
  | [x] => rw [urldec.eq_3 b [x] (by intro _ _ _ hx; cases hx), if_neg hb]

theorem urldec_urlenc (l : List Nat) (h : ∀ b ∈ l, b < 256) : urldec (urlenc l) = l := by
  induction l with
  | nil => rfl
  | cons b rest ih =>
    have hb : b < 256 := h b (List.mem_cons_self b rest)
    have hrest := ih (fun x hx => h x (List.mem_cons_of_mem b hx))
    rw [urlenc, urlencByte]
    split
    · rename_i hesc
      rw [List.cons_append, List.cons_append, List.cons_append, List.nil_append]
      have h37 : b = 37 ∨ b = 38 ∨ b = 61 ∨ b = 63 := hesc
      rw [urldec_esc, hrest, unhexDigit_hexDigit _ (by omega),
        unhexDigit_hexDigit _ (by omega)]
      congr 1
      omega
    · rename_i hne
      rw [List.cons_append, List.nil_append, urldec_nonesc b (by omega), hrest]

theorem hexDigit_bounds (x : Nat) (h : x < 16) :
    (48 ≤ hexDigit x ∧ hexDigit x ≤ 57) ∨ (65 ≤ hexDigit x ∧ hexDigit x ≤ 70) := by
  simp only [hexDigit]
  split <;> omega

theorem urlenc_mem (l : List Nat) (h : ∀ b ∈ l, b < 256) :
    ∀ d ∈ urlenc l, d ≠ 38 ∧ d ≠ 61 := by
  induction l with
  | nil => intro d hd; simp [urlenc] at hd
  | cons b rest ih =>
    intro d hd
    have hb : b < 256 := h b (List.mem_cons_self b rest)
    rw [urlenc] at hd
    rcases List.mem_append.mp hd with h1 | h1
    · rw [urlencByte] at h1
      split at h1
      · simp only [List.mem_cons, List.not_mem_nil, or_false] at h1
        have hhi := hexDigit_bounds (b / 16) (by omega)
        have hlo := hexDigit_bounds (b % 16) (by omega)
        rcases h1 with h2 | h2 | h2 <;> omega
      · rename_i hne
        simp only [List.mem_cons, List.not_mem_nil, or_false] at h1
        omega
    · exact ih (fun x hx => h x (List.mem_cons_of_mem b hx)) d h1

/-! ### Separator-based decomposition used by the query-style fields. -/

/-- Split at the first occurrence of `sep`, failing when it is absent. -/
def takeUntilByte (sep : Nat) : List Nat → Option (List Nat × List Nat)
  | [] => none
  | b :: rest =>
    if b = sep then some ([], rest)
    else (takeUntilByte sep rest).map (fun p => (b :: p.1, p.2))

theorem takeUntilByte_append (sep : Nat) (xs ys : List Nat) (h : sep ∉ xs) :
    takeUntilByte sep (xs ++ sep :: ys) = some (xs, ys) := by
  induction xs with
  | nil => simp [takeUntilByte]
  | cons x xs ih =>
    have hx : x ≠ sep := fun he => h (he ▸ List.mem_cons_self x xs)
    rw [List.cons_append, takeUntilByte, if_neg hx,
      ih (fun hm => h (List.mem_cons_of_mem x hm))]
    rfl

/-- Consume an expected literal byte sequence off the front of a list. -/
def expectBytes : List Nat → List Nat → Option (List Nat)
  | [], l => some l
  | _ :: _, [] => none
  | p :: ps, b :: l => if b = p then expectBytes ps l else none

theorem expectBytes_append (p rest : List Nat) :
    expectBytes p (p ++ rest) = some rest := by
  induction p with
  | nil => rfl
  | cons x ps ih => rw [List.cons_append, expectBytes, if_pos rfl, ih]

/-- Join byte-string parts with a separator byte between consecutive parts. -/
def intercalateByte (sep : Nat) : List (List Nat) → List Nat
  | [] => []
  | [x] => x
  | x :: y :: xs => x ++ sep :: intercalateByte sep (y :: xs)

/-- Split a byte string on every occurrence of the separator byte. -/
def splitOnByte (sep : Nat) : List Nat → List (List Nat)
  | [] => [[]]
  | b :: rest =>
    if b = sep then [] :: splitOnByte sep rest
    else (b :: (splitOnByte sep rest).headI) :: (splitOnByte sep rest).tail

theorem splitOnByte_ne_nil (sep : Nat) (l : List Nat) : splitOnByte sep l ≠ [] := by
  cases l with
  | nil => simp [splitOnByte]
  | cons b rest =>
    rw [splitOnByte]
    split <;> simp

theorem splitOnByte_sep_free (sep : Nat) (xs : List Nat) (h : sep ∉ xs) :
    splitOnByte sep xs = [xs] := by
  induction xs with
  | nil => rfl
  | cons x xs ih =>
    have hx : x ≠ sep := fun he => h (he ▸ List.mem_cons_self x xs)
    rw [splitOnByte, if_neg hx, ih (fun hm => h (List.mem_cons_of_mem x hm))]
    rfl

theorem splitOnByte_append (sep : Nat) (xs l : List Nat) (h : sep ∉ xs) :
    splitOnByte sep (xs ++ sep :: l) = xs :: splitOnByte sep l := by
  induction xs with
  | nil => rw [List.nil_append, splitOnByte, if_pos rfl]
  | cons x xs ih =>
    have hx : x ≠ sep := fun he => h (he ▸ List.mem_cons_self x xs)
    rw [List.cons_append, splitOnByte, if_neg hx,
      ih (fun hm => h (List.mem_cons_of_mem x hm))]
    rfl

theorem splitOnByte_intercalateByte (sep : Nat) (ps : List (List Nat))
    (hne : ps ≠ []) (h : ∀ part ∈ ps, sep ∉ part) :
    splitOnByte sep (intercalateByte sep ps) = ps := by
  induction ps with
  | nil => exact absurd rfl hne
  | cons p ps ih =>
    cases ps with
    | nil =>
      rw [intercalateByte]
      exact splitOnByte_sep_free sep p (h p (List.mem_cons_self p []))
    | cons q qs =>
      rw [intercalateByte, splitOnByte_append sep p _ (h p (List.mem_cons_self p _)),
        ih (by simp) (fun part hp => h part (List.mem_cons_of_mem p hp))]

/-! ## Status (spec §2, §4.1 item 6): the (code, message, cause) triple and its
stringified wire form `?code=<int>&msg=<urlenc>&cause=<urlenc>`. -/

/-- Modelled from the spec: the uniform error/status triple
(code:int32, message:string, cause:string); the Status component is not
under src/, only the spec describes it. Strings are byte lists. -/
structure Status where
  code : Int
  msg : List Nat
  cause : List Nat
deriving DecidableEq, Repr

/-- Modelled from the spec: stringified status
`?code=<int>&msg=<urlenc>&cause=<urlenc>` (spec §4.1 item 6), as bytes. -/
def statusBytes (s : Status) : List Nat :=
  [63, 99, 111, 100, 101, 61]
    ++ (intToDec s.code
    ++ (38 :: ([109, 115, 103, 61]
    ++ (urlenc s.msg
    ++ (38 :: ([99, 97, 117, 115, 101, 61]
    ++ urlenc s.cause))))))

/-- Modelled from the spec: parser of the stringified status form. -/
def parseStatus (l : List Nat) : Option Status :=
  match expectBytes [63, 99, 111, 100, 101, 61] l with
  | none => none
  | some l1 =>
    match takeUntilByte 38 l1 with
    | none => none
    | some (codeB, l2) =>
      match expectBytes [109, 115, 103, 61] l2 with
      | none => none
      | some l3 =>
        match takeUntilByte 38 l3 with
        | none => none
        | some (msgB, l4) =>
          match expectBytes [99, 97, 117, 115, 101, 61] l4 with
          | none => none
          | some l5 => some { code := decToInt codeB, msg := urldec msgB, cause := urldec l5 }

theorem intToDec_mem (i : Int) : ∀ d ∈ intToDec i, d = 45 ∨ (48 ≤ d ∧ d ≤ 57) := by
  intro d hd
  rw [intToDec] at hd
  split at hd
  · rcases List.mem_cons.mp hd with h | h
    · left; exact h
    · right; exact natToDec_digits _ _ h
  · right; exact natToDec_digits _ _ hd

theorem intToDec_no_amp (i : Int) : (38 : Nat) ∉ intToDec i := by
  intro hm
  rcases intToDec_mem i 38 hm with h | h <;> omega

theorem urlenc_no_amp (l : List Nat) (h : ∀ b ∈ l, b < 256) : (38 : Nat) ∉ urlenc l :=
  fun hm => (urlenc_mem l h 38 hm).1 rfl

theorem urlenc_no_eq (l : List Nat) (h : ∀ b ∈ l, b < 256) : (61 : Nat) ∉ urlenc l :=
  fun hm => (urlenc_mem l h 61 hm).2 rfl

theorem parseStatus_statusBytes (s : Status)
    (hmsg : ∀ b ∈ s.msg, b < 256) (hcause : ∀ b ∈ s.cause, b < 256) :
    parseStatus (statusBytes s) = some s := by
  simp only [parseStatus, statusBytes, expectBytes_append,
    takeUntilByte_append 38 _ _ (intToDec_no_amp s.code),
    takeUntilByte_append 38 _ _ (urlenc_no_amp s.msg hmsg),
    decToInt_intToDec, urldec_urlenc s.msg hmsg, urldec_urlenc s.cause hcause]

/-! ## Meta (spec §3, §4.1 item 7): ordered multimap of (key, value) byte
strings, wire form `k=v&k2=v2…` preserving insertion order. -/

/-- Modelled from the spec: one `k=v` meta pair in query encoding. -/
def metaPairBytes (kv : List Nat × List Nat) : List Nat :=
  urlenc kv.1 ++ 61 :: urlenc kv.2

/-- Modelled from the spec: URL-style query encoding of the ordered meta
multimap, `k=v&k2=v2…` preserving insertion order (spec §4.1 item 7). -/
def metaBytes (meta : List (List Nat × List Nat)) : List Nat :=
  intercalateByte 38 (meta.map metaPairBytes)

/-- Modelled from the spec: parse one `k=v` pair of the meta query string. -/
def parseMetaPair (l : List Nat) : Option (List Nat × List Nat) :=
  match takeUntilByte 61 l with
  | none => none
  | some (k, v) => some (urldec k, urldec v)

/-- Modelled from the spec: parse the meta query string back into the
ordered multimap; the empty string is the empty multimap. -/
def parseMeta (l : List Nat) : Option (List (List Nat × List Nat)) :=
  if l = [] then some [] else (splitOnByte 38 l).mapM parseMetaPair

/-- Validity of meta entries: keys and values are byte strings. -/
def MetaValid (meta : List (List Nat × List Nat)) : Prop :=
  ∀ kv ∈ meta, (∀ b ∈ kv.1, b < 256) ∧ (∀ b ∈ kv.2, b < 256)

instance (meta : List (List Nat × List Nat)) : Decidable (MetaValid meta) := by
  unfold MetaValid
  infer_instance

theorem metaPairBytes_no_amp (kv : List Nat × List Nat)
    (hk : ∀ b ∈ kv.1, b < 256) (hv : ∀ b ∈ kv.2, b < 256) :
    (38 : Nat) ∉ metaPairBytes kv := by
  intro hm
  rcases List.mem_append.mp hm with h | h
  · exact urlenc_no_amp kv.1 hk h
  · rcases List.mem_cons.mp h with h2 | h2
    · omega
    · exact urlenc_no_amp kv.2 hv h2

theorem parseMetaPair_metaPairBytes (kv : List Nat × List Nat)
    (hk : ∀ b ∈ kv.1, b < 256) (hv : ∀ b ∈ kv.2, b < 256) :
    parseMetaPair (metaPairBytes kv) = some kv := by
  simp only [parseMetaPair, metaPairBytes,
    takeUntilByte_append 61 _ _ (urlenc_no_eq kv.1 hk),
    urldec_urlenc kv.1 hk, urldec_urlenc kv.2 hv]

theorem mapM_parseMetaPair (meta : List (List Nat × List Nat)) (h : MetaValid meta) :
    (meta.map metaPairBytes).mapM parseMetaPair = some meta := by
  induction meta with
  | nil => rfl
  | cons kv rest ih =>
    have hkv := h kv (List.mem_cons_self kv rest)
    rw [List.map_cons, List.mapM_cons,
      parseMetaPair_metaPairBytes kv hkv.1 hkv.2,
      ih (fun x hx => h x (List.mem_cons_of_mem kv hx))]
    rfl

theorem metaBytes_ne_nil (kv : List Nat × List Nat) (rest : List (List Nat × List Nat)) :
    metaBytes (kv :: rest) ≠ [] := by
  rw [metaBytes, List.map_cons]
  cases rest with
  | nil =>
    rw [List.map_nil, intercalateByte, metaPairBytes]
    simp
  | cons kv2 rest2 =>
    rw [List.map_cons, intercalateByte, metaPairBytes]
    simp

theorem parseMeta_metaBytes (meta : List (List Nat × List Nat)) (h : MetaValid meta) :
    parseMeta (metaBytes meta) = some meta := by
  cases meta with
  | nil => rfl
  | cons kv rest =>
    rw [parseMeta, if_neg (metaBytes_ne_nil kv rest), metaBytes,
      splitOnByte_intercalateByte 38 _ (by simp) ?parts]
    case parts =>
      intro part hp
      obtain ⟨x, hx, rfl⟩ := List.mem_map.mp hp
      have hxv := h x hx
      exact metaPairBytes_no_amp x hxv.1 hxv.2
    exact mapM_parseMetaPair _ h

/-! ## Message: the universal envelope (spec §3) and the RAW protocol
encoder/decoder (spec §4.1). The Message and Protocol components are not
under src/; they are modelled from the spec. -/

/-- Modelled from the spec: the universal message envelope with its essential
fields (spec §3): seq, mtype, service_method, status (present iff REPLY),
meta (ordered multimap), body_codec, xfer_pipe, body. -/
structure Message where
  seq : Nat
  mtype : Nat
  serviceMethod : List Nat
  status : Option Status
  meta : List (List Nat × List Nat)
  bodyCodec : Nat
  xferPipe : List Nat
  body : List Nat
deriving DecidableEq, Repr

/-- Zero status used only as the `Option.getD` default; a valid REPLY always
carries `some` status, so the default is never observed on valid messages. -/
def defaultStatus : Status := { code := 0, msg := [], cause := [] }

/-- Modelled from the spec: the status field of the RAW wire layout, present
iff `mtype = REPLY` (= 2), as uint32 length + stringified status. -/
def statusField (mtype : Nat) (st : Option Status) : List Nat :=
  if mtype = 2 then
    uint32BE (statusBytes (st.getD defaultStatus)).length
      ++ statusBytes (st.getD defaultStatus)
  else []

/-- Modelled from the spec: RAW protocol payload after the size field,
spec §4.1 items 2–9 in order: 1-byte filter count then the filter IDs, seq
uint32, mtype uint8, service_method length+bytes, status (iff REPLY)
length+bytes, meta length+bytes, body_codec uint8, body remainder. -/
def encodePayload (m : Message) : List Nat :=
  m.xferPipe.length :: (m.xferPipe
    ++ (uint32BE m.seq
    ++ (m.mtype :: (uint32BE m.serviceMethod.length
    ++ (m.serviceMethod
    ++ (statusField m.mtype m.status
    ++ (uint32BE (metaBytes m.meta).length
    ++ (metaBytes m.meta
    ++ (m.bodyCodec :: m.body)))))))))

/-- Modelled from the spec: the full RAW frame, `size` uint32 (length of the
remainder) followed by the payload (spec §4.1 item 1). -/
def encodeMessage (m : Message) : List Nat :=
  uint32BE (encodePayload m).length ++ encodePayload m

/-- Modelled from the spec: decode the status field of the wire layout;
present iff `mtype = REPLY` (= 2). -/
def decodeStatusField (mtype : Nat) (l : List Nat) : Option (Option Status × List Nat) :=
  if mtype = 2 then
    match readUInt32BE l with
    | none => none
    | some (stLen, l) =>
      match readBytes stLen l with
      | none => none
      | some (stB, l) =>
        match parseStatus stB with
        | none => none
        | some s => some (some s, l)
  else some (none, l)

/-- Modelled from the spec: RAW protocol decoder. It parses the envelope,
validates `size ≤ read_limit` (spec §4.1 decoding path) and that `size`
equals the bytes consumed (spec §3 invariants), and fails on any short
read. -/
def decodeMessage (readLimit : Nat) (l : List Nat) : Option Message :=
  match readUInt32BE l with
  | none => none
  | some (size, l) =>
    if size > readLimit then none
    else if l.length ≠ size then none
    else
      match readByte l with
      | none => none
      | some (n, l) =>
        match readBytes n l with
        | none => none
        | some (pipe, l) =>
          match readUInt32BE l with
          | none => none
          | some (seq, l) =>
            match readByte l with
            | none => none
            | some (mtype, l) =>
              match readUInt32BE l with
              | none => none
              | some (smLen, l) =>
                match readBytes smLen l with
                | none => none
                | some (sm, l) =>
                  match decodeStatusField mtype l with
                  | none => none
                  | some (st, l) =>
                    match readUInt32BE l with
                    | none => none
                    | some (metaLen, l) =>
                      match readBytes metaLen l with
                      | none => none
                      | some (metaB, l) =>
                        match parseMeta metaB with
                        | none => none
                        | some meta =>
                          match readByte l with
                          | none => none
                          | some (bc, body) =>
                            some { seq := seq, mtype := mtype,
                                   serviceMethod := sm, status := st,
                                   meta := meta, bodyCodec := bc,
                                   xferPipe := pipe, body := body }

/-- Validity of a status triple (spec §3): int32 code, byte-string message
and cause, and a stringified form that fits a uint32 length field. -/
def Status.Valid (s : Status) : Prop :=
  -(2 ^ 31) ≤ s.code ∧ s.code < 2 ^ 31
    ∧ (∀ b ∈ s.msg, b < 256) ∧ (∀ b ∈ s.cause, b < 256)
    ∧ (statusBytes s).length < 2 ^ 32

instance (s : Status) : Decidable s.Valid := by
  unfold Status.Valid
  infer_instance

/-- Validity of an optional status: `some` statuses are valid triples. -/
def StatusOptValid : Option Status → Prop
  | none => True
  | some s => s.Valid

instance (o : Option Status) : Decidable (StatusOptValid o) :=
  match o with
  | none => isTrue trivial
  | some s => inferInstanceAs (Decidable s.Valid)

/-- Validity of a message (spec §3): seq is 32-bit, mtype is CALL/REPLY/PUSH,
status is present iff REPLY, all strings are byte strings whose encoded
blocks fit their uint32 length fields, the codec ID is one byte, and the
transfer pipe has at most 255 one-byte filter IDs. -/
def Message.Valid (m : Message) : Prop :=
  m.seq < 2 ^ 32
    ∧ (m.mtype = 1 ∨ m.mtype = 2 ∨ m.mtype = 3)
    ∧ (∀ b ∈ m.serviceMethod, b < 256)
    ∧ m.serviceMethod.length < 2 ^ 32
    ∧ (m.status.isSome = true ↔ m.mtype = 2)
    ∧ StatusOptValid m.status
    ∧ MetaValid m.meta
    ∧ (metaBytes m.meta).length < 2 ^ 32
    ∧ m.bodyCodec < 256
    ∧ m.xferPipe.length ≤ 255
    ∧ (∀ b ∈ m.xferPipe, b < 256)
    ∧ (∀ b ∈ m.body, b < 256)

instance (m : Message) : Decidable m.Valid := by
  unfold Message.Valid
  infer_instance

theorem statusOptValid_some {s : Status} (h : StatusOptValid (some s)) : s.Valid := h

/-- C1: for every valid Message m whose frame fits the read limit, decoding
the encoding of m yields a message field-wise equal to m: seq, mtype,
service_method, status, meta (duplicate keys and insertion order preserved),
body_codec, xfer_pipe (order preserved), and body are all unchanged by the
encode/decode round-trip over the RAW protocol (spec §4.1, §8 property 1). -/
theorem c1_decode_encode_roundtrip (m : Message) (readLimit : Nat)
    (hv : m.Valid) (hsz : (encodePayload m).length ≤ readLimit)
    (hlim : readLimit < 2 ^ 32) :
    decodeMessage readLimit (encodeMessage m) = some m := by
  obtain ⟨seq, mtype, sm, st, meta, bc, pipe, body⟩ := m
  obtain ⟨h1, h2, h3, h4, h5, h6, h7, h8, h9, h10, h11, h12⟩ := hv
  dsimp only at h1 h2 h3 h4 h5 h6 h7 h8 h9 h10 h11 h12
  have hpay : (encodePayload ⟨seq, mtype, sm, st, meta, bc, pipe, body⟩).length < 2 ^ 32 :=
    Nat.lt_of_le_of_lt hsz hlim
  rw [encodeMessage]
  simp only [decodeMessage, readUInt32BE_uint32BE _ hpay]
  rw [if_neg (by omega), if_neg (by simp)]
  rcases h2 with hm | hm | hm
  · subst hm
    have hnone : st = none := by
      cases st with
      | none => rfl
      | some s => exact absurd (h5.mp rfl) (by omega)
    subst hnone
    simp only [encodePayload, statusField, decodeStatusField,
      if_neg (show (1 : Nat) ≠ 2 by omega), readByte,
      readBytes_append, readUInt32BE_uint32BE _ h1, readUInt32BE_uint32BE _ h4,
      readUInt32BE_uint32BE _ h8, parseMeta_metaBytes meta h7,
      List.nil_append, List.append_assoc]
  · subst hm
    have hsome : st.isSome = true := h5.mpr rfl
    obtain ⟨s, rfl⟩ := Option.isSome_iff_exists.mp hsome
    obtain ⟨hs1, hs2, hs3, hs4, hs5⟩ := statusOptValid_some h6
    simp only [encodePayload, statusField, decodeStatusField, Option.getD_some,
      if_pos (rfl : (2 : Nat) = 2), eq_self_iff_true, if_true,
      readByte, readBytes_append, readUInt32BE_uint32BE _ h1, readUInt32BE_uint32BE _ h4,
      readUInt32BE_uint32BE _ hs5, parseStatus_statusBytes s hs3 hs4,
      readUInt32BE_uint32BE _ h8, parseMeta_metaBytes meta h7,
      List.nil_append, List.append_assoc]
  · subst hm
    have hnone : st = none := by
      cases st with
      | none => rfl
      | some s => exact absurd (h5.mp rfl) (by omega)
    subst hnone
    simp only [encodePayload, statusField, decodeStatusField,
      if_neg (show (3 : Nat) ≠ 2 by omega), readByte,
      readBytes_append, readUInt32BE_uint32BE _ h1, readUInt32BE_uint32BE _ h4,
      readUInt32BE_uint32BE _ h8, parseMeta_metaBytes meta h7,
      List.nil_append, List.append_assoc]

/-- A concrete valid REPLY message exercising every field, including a
duplicate meta key and a non-empty transfer pipe. -/
def sampleMessage : Message :=
  { seq := 7, mtype := 2,
    serviceMethod := [47, 104, 111, 109, 101, 47, 116, 101, 115, 116],
    status := some { code := 0, msg := [79, 75], cause := [] },
    meta := [([112], [49]), ([112], [50])],
    bodyCodec := 106, xferPipe := [103], body := [1, 2, 3] }

/-- C1 witness: the round-trip theorem evaluated on a concrete message. -/
theorem c1_decode_encode_roundtrip_witness :
    sampleMessage.Valid ∧ decodeMessage 1024 (encodeMessage sampleMessage) = some sampleMessage :=
  ⟨by decide, c1_decode_encode_roundtrip sampleMessage 1024 (by decide) (by decide) (by decide)⟩

/-! ## Transfer pipe (spec §4.2): process-wide registry of reversible byte
transforms, applied in order by senders and reversed in opposite order by
receivers. Not under src/; modelled from the spec. -/

/-- Modelled from the spec: a transfer filter, a (name, encode, decode)
triple of byte transforms (spec §4.2). -/
structure XferFilter where
  name : List Nat
  encode : List Nat → List Nat
  decode : List Nat → List Nat

/-- Modelled from the spec: the process-wide registry mapping 1-byte filter
IDs to filters; unassigned IDs map to `none` (spec §4.2). -/
def XferRegistry : Type := Nat → Option XferFilter

/-- Modelled from the spec: the sender side — for each filter ID in the pipe
in order, transform the byte block; a missing filter fails (spec §4.1
encoding path, §7 TRANSFER_PIPE_ERROR). -/
def applyPipe (reg : XferRegistry) : List Nat → List Nat → Option (List Nat)
  | [], b => some b
  | id :: rest, b =>
    match reg id with
    | none => none
    | some f => applyPipe reg rest (f.encode b)

/-- Apply the decode direction of the filters in list order. -/
def reverseApply (reg : XferRegistry) : List Nat → List Nat → Option (List Nat)
  | [], b => some b
  | id :: rest, b =>
    match reg id with
    | none => none
    | some f => reverseApply reg rest (f.decode b)

/-- Modelled from the spec: the receiver side — for each filter ID in
reverse, reverse the transform (spec §4.1 decoding path). -/
def reversePipe (reg : XferRegistry) (pipe : List Nat) (b : List Nat) : Option (List Nat) :=
  reverseApply reg pipe.reverse b

theorem reverseApply_append (reg : XferRegistry) (l1 l2 : List Nat) (b : List Nat) :
    reverseApply reg (l1 ++ l2) b =
      (reverseApply reg l1 b).bind (fun c => reverseApply reg l2 c) := by
  induction l1 generalizing b with
  | nil => rfl
  | cons id l1 ih =>
    rw [List.cons_append]
    simp only [reverseApply]
    cases reg id with
    | none => rfl
    | some f => exact ih (f.decode b)

/-- C2: for every transfer pipe P all of whose filter IDs are registered
(with the registry contract that each filter's decode reverses its encode,
spec §1, §4.2), applying the filters of P in order succeeds and then
reversing them in opposite order returns exactly the original byte
sequence (spec §8 property 2). -/
theorem c2_pipe_roundtrip (reg : XferRegistry) (P : List Nat) (b : List Nat)
    (hreg : ∀ id ∈ P, ∃ f, reg id = some f ∧ ∀ x, f.decode (f.encode x) = x) :
    ∃ c, applyPipe reg P b = some c ∧ reversePipe reg P c = some b := by
  induction P generalizing b with
  | nil => exact ⟨b, rfl, rfl⟩
  | cons id rest ih =>
    obtain ⟨f, hf, hinv⟩ := hreg id (List.mem_cons_self id rest)
    obtain ⟨c, hc1, hc2⟩ := ih (f.encode b) (fun j hj => hreg j (List.mem_cons_of_mem id hj))
    refine ⟨c, ?_, ?_⟩
    · simp only [applyPipe, hf]
      exact hc1
    · rw [reversePipe] at hc2 ⊢
      rw [List.reverse_cons, reverseApply_append, hc2]
      simp only [Option.some_bind, reverseApply, hf, hinv]

/-- A concrete registry holding one self-inverse filter at ID 103. -/
def sampleRegistry : XferRegistry := fun id =>
  if id = 103 then
    some { name := [103, 122, 105, 112], encode := List.reverse, decode := List.reverse }
  else none

/-- C2 witness: the pipe round-trip theorem evaluated on a concrete
registry, pipe and byte sequence. -/
theorem c2_pipe_roundtrip_witness :
    ∃ c, applyPipe sampleRegistry [103, 103] [0, 1, 2] = some c
      ∧ reversePipe sampleRegistry [103, 103] c = some [0, 1, 2] :=
  c2_pipe_roundtrip sampleRegistry [103, 103] [0, 1, 2] (by
    intro id hid
    have h103 : id = 103 := by
      rcases List.mem_cons.mp hid with h | h
      · exact h
      · rcases List.mem_cons.mp h with h2 | h2
        · exact h2
        · exact absurd h2 (List.not_mem_nil id)
    subst h103
    exact ⟨_, rfl, fun x => List.reverse_reverse x⟩)

/-! ## Session (spec §4.4, §7): inflight-call tracking and error
propagation. The Session component is not under src/; modelled from the
spec. -/

/-- Modelled from the spec: the status-code kinds relevant to session error
propagation (spec §7). -/
inductive Code
  | ok
  | notFound
  | timeout
  | transportError
  | protocolError
deriving DecidableEq, Repr

/-- Modelled from the spec: what a pending caller observes when its call
resolves — a delivered REPLY (body and status, spec §4.4 read loop) or a
failure code (spec §4.4 step 5, §7 propagation). -/
inductive Outcome
  | reply (st : Option Status) (body : List Nat)
  | failed (c : Code)
deriving DecidableEq, Repr

/-- Modelled from the spec: the session state the claims are about — the
close flag and the inflight map, kept as the list of pending-call seqs
(spec §3 Session attributes). -/
structure Sess where
  closed : Bool
  pending : List Nat
deriving DecidableEq, Repr

/-- Modelled from the spec: session teardown — every pending call is
completed with a transport-error status and the session reaches its
terminal closed state with an empty inflight map (spec §3 lifecycle, §4.4
state machine). Returns the new state and the resolutions delivered. -/
def closeSession (s : Sess) : Sess × List (Nat × Outcome) :=
  ({ closed := true, pending := [] },
    s.pending.map (fun q => (q, Outcome.failed Code.transportError)))

/-- Modelled from the spec: REPLY dispatch — look up the pending call by
seq; if present, deliver body and status and remove the handle; if absent,
discard (spec §4.4 read loop). -/
def dispatchReply (s : Sess) (m : Message) : Sess × List (Nat × Outcome) :=
  if m.seq ∈ s.pending then
    ({ s with pending := s.pending.erase m.seq }, [(m.seq, Outcome.reply m.status m.body)])
  else (s, [])

/-- The observable result of receiving one frame: the new session state,
the resolutions delivered to pending callers, and the raised error. -/
structure RecvResult where
  sess : Sess
  resolutions : List (Nat × Outcome)
  err : Option Code
deriving DecidableEq, Repr

/-- Modelled from the spec: receive one decoded frame. An unknown codec ID,
an unknown filter ID, or size > read_limit is a fatal PROTOCOL_ERROR: the
session closes and all inflight calls fail with TRANSPORT_ERROR (spec §4.1
errors, §7 propagation policy, §8 property 6). Otherwise a REPLY is
dispatched against the inflight map, and CALL/PUSH frames go to the router
without touching the map (spec §4.4 read loop). -/
def recvFrame (readLimit : Nat) (codecKnown xferKnown : Nat → Bool)
    (s : Sess) (size : Nat) (m : Message) : RecvResult :=
  if size > readLimit ∨ codecKnown m.bodyCodec = false
      ∨ (∃ id ∈ m.xferPipe, xferKnown id = false) then
    { sess := (closeSession s).1, resolutions := (closeSession s).2,
      err := some Code.protocolError }
  else if m.mtype = 2 then
    { sess := (dispatchReply s m).1, resolutions := (dispatchReply s m).2, err := none }
  else
    { sess := s, resolutions := [], err := none }

/-- C3: for every incoming frame whose decoded envelope carries an unknown
codec ID, an unknown filter ID, or size strictly greater than the
configured read_limit, the receiver raises PROTOCOL_ERROR and closes the
session, and every pending call on that session resolves with a
TRANSPORT_ERROR status (spec §7, §8 property 6, scenario S6). -/
theorem c3_protocol_error_closes_session (readLimit : Nat)
    (codecKnown xferKnown : Nat → Bool) (s : Sess) (size : Nat) (m : Message)
    (h : size > readLimit ∨ codecKnown m.bodyCodec = false
      ∨ ∃ id ∈ m.xferPipe, xferKnown id = false) :
    recvFrame readLimit codecKnown xferKnown s size m =
      { sess := { closed := true, pending := [] },
        resolutions := s.pending.map (fun q => (q, Outcome.failed Code.transportError)),
        err := some Code.protocolError } := by
  rw [recvFrame, if_pos h]
  rfl

/-- A frame of scenario S6: its size exceeds the read limit of 1024. -/
def frameTooLarge : Message :=
  { seq := 0, mtype := 1, serviceMethod := [], status := none, meta := [],
    bodyCodec := 106, xferPipe := [], body := [] }

/-- C3 witness: scenario S6 with `size = read_limit + 1` and one pending
call, evaluated concretely. -/
theorem c3_protocol_error_closes_session_witness :
    recvFrame 1024 (fun _ => true) (fun _ => true)
        { closed := false, pending := [5] } 1025 frameTooLarge =
      { sess := { closed := true, pending := [] },
        resolutions := [(5, Outcome.failed Code.transportError)],
        err := some Code.protocolError } :=
  c3_protocol_error_closes_session 1024 (fun _ => true) (fun _ => true)
    { closed := false, pending := [5] } 1025 frameTooLarge (by decide)

theorem count_map_pair (c : Outcome) (l : List Nat) (hl : l.Nodup) (q : Nat) (hq : q ∈ l) :
    (l.map (fun x => (x, c))).count (q, c) = 1 := by
  induction l with
  | nil => simp at hq
  | cons x xs ih =>
    rcases List.mem_cons.mp hq with h | h
    · subst h
      have hx : q ∉ xs := (List.nodup_cons.mp hl).1
      have hzero : (xs.map (fun x => (x, c))).count (q, c) = 0 := by
        rw [List.count_eq_zero]
        intro hmem
        obtain ⟨y, hy, he⟩ := List.mem_map.mp hmem
        have hyq : y = q := (Prod.ext_iff.mp he).1
        exact hx (hyq ▸ hy)
      simp [List.count_cons, hzero]
    · have hcnt := ih (List.nodup_cons.mp hl).2 h
      have hne : q ≠ x := by
        rintro rfl
        exact (List.nodup_cons.mp hl).1 h
      simp [List.count_cons, hcnt, hne]

/-- C4: for every session closed while k calls are inflight (any k ≥ 0,
with the inflight map's seqs distinct as the spec's seq-uniqueness
invariant guarantees), teardown produces exactly k resolutions, each of
the k pending callers observes TRANSPORT_ERROR exactly once, no resolution
goes to a caller that was not pending, and the inflight map is emptied
(spec §3 lifecycle, §8 property 4). -/
theorem c4_close_resolves_each_pending_once (s : Sess) (h : s.pending.Nodup) :
    ((closeSession s).2).length = s.pending.length
    ∧ (∀ q ∈ s.pending,
        ((closeSession s).2).count (q, Outcome.failed Code.transportError) = 1)
    ∧ (∀ r ∈ (closeSession s).2, r.1 ∈ s.pending ∧ r.2 = Outcome.failed Code.transportError)
    ∧ (closeSession s).1 = { closed := true, pending := [] } := by
  refine ⟨by simp [closeSession], ?_, ?_, rfl⟩
  · intro q hq
    exact count_map_pair (Outcome.failed Code.transportError) s.pending h q hq
  · intro r hr
    obtain ⟨q, hq, rfl⟩ := List.mem_map.mp hr
    exact ⟨hq, rfl⟩

/-- C4 witness: closing a session with three distinct inflight calls,
evaluated concretely. -/
theorem c4_close_resolves_each_pending_once_witness :
    ((closeSession { closed := false, pending := [1, 2, 3] }).2).length = 3
    ∧ ((closeSession { closed := false, pending := [1, 2, 3] }).2).count
        (2, Outcome.failed Code.transportError) = 1 :=
  ⟨(c4_close_resolves_each_pending_once { closed := false, pending := [1, 2, 3] }
      (by decide)).1,
   (c4_close_resolves_each_pending_once { closed := false, pending := [1, 2, 3] }
      (by decide)).2.1 2 (by decide)⟩

/-- C5: for every well-formed REPLY message whose seq has no pending call
in the session's inflight map (in particular a second REPLY for an
already-resolved seq), the session discards the message without delivering
it to any caller, the session state — including the close flag and the
inflight map — is unchanged, so the session stays usable and subsequent
message dispatch is unaffected (spec §4.4 read loop, §8 property 5). -/
theorem c5_unmatched_reply_discarded (readLimit : Nat)
    (codecKnown xferKnown : Nat → Bool) (s : Sess) (size : Nat) (m : Message)
    (hgood : ¬(size > readLimit ∨ codecKnown m.bodyCodec = false
      ∨ ∃ id ∈ m.xferPipe, xferKnown id = false))
    (hmtype : m.mtype = 2) (habs : m.seq ∉ s.pending) :
    dispatchReply s m = (s, [])
    ∧ recvFrame readLimit codecKnown xferKnown s size m =
        { sess := s, resolutions := [], err := none } := by
  have hd : dispatchReply s m = (s, []) := by rw [dispatchReply, if_neg habs]
  refine ⟨hd, ?_⟩
  rw [recvFrame, if_neg hgood, if_pos hmtype, hd]

/-- A REPLY whose seq (9) has no pending call. -/
def duplicateReply : Message :=
  { seq := 9, mtype := 2, serviceMethod := [], status := some defaultStatus,
    meta := [], bodyCodec := 106, xferPipe := [], body := [] }

/-- C5 witness: a REPLY for an unknown seq against a session with one
other pending call, evaluated concretely. -/
theorem c5_unmatched_reply_discarded_witness :
    dispatchReply { closed := false, pending := [1] } duplicateReply
      = ({ closed := false, pending := [1] }, [])
    ∧ recvFrame 1024 (fun _ => true) (fun _ => true)
        { closed := false, pending := [1] } 64 duplicateReply =
      { sess := { closed := false, pending := [1] }, resolutions := [], err := none } :=
  c5_unmatched_reply_discarded 1024 (fun _ => true) (fun _ => true)
    { closed := false, pending := [1] } 64 duplicateReply
    (by decide) rfl (by decide)

/-! ## PeerConfig (src/config.go). -/

/-- Network addresses produced by config checking. The three shapes mirror
net.ResolveTCPAddr, net.ResolveUnixAddr and the FakeAddr built for the
kcp/quic family; address resolution itself lives outside the repository
and is embedded as the structural pairing of network, host and port. -/
inductive Addr
  | tcpAddr (network host port : String)
  | unixAddr (network host port : String)
  | fakeAddr (network addr host port : String)
deriving DecidableEq, Repr

/-- net.JoinHostPort for plain IPv4 hosts. -/
def joinHostPort (host port : String) : String := host ++ ":" ++ port

/-- PeerConfig of src/config.go: the exported options plus the unexported
localAddr, listenAddr, slowCometDuration and checked fields. Durations are
int64 nanoseconds; ports carry their numeric uint16 values. -/
structure PeerConfig where
  Network : String
  LocalIP : String
  LocalPort : Nat
  ListenPort : Nat
  DialTimeout : Int
  RedialTimes : Int
  RedialInterval : Int
  DefaultBodyCodec : String
  DefaultSessionAge : Int
  DefaultContextAge : Int
  SlowCometDuration : Int
  PrintDetail : Bool
  CountTime : Bool
  localAddr : Option Addr
  listenAddr : Option Addr
  slowCometDuration : Int
  checked : Bool
deriving DecidableEq, Repr

/-- math.MaxInt64. -/
def maxInt64 : Int := 9223372036854775807

/-- time.Millisecond * 100 in nanoseconds. -/
def redialIntervalDefault : Int := 100000000

/-- PeerConfig.newAddr (src/config.go lines 108–133): switch on the network
string — the tcp family resolves a TCP address, the unix family a unix
address, and kcp/udp/udp4/udp6/quic build a FakeAddr whose network is kcp
unless the configured network is quic; any other string is the
invalid-network error. Resolution of a well-formed host and numeric port
never fails in this embedding. -/
def newAddr (network localIP port : String) : Except String Addr :=
  if network = "tcp" ∨ network = "tcp4" ∨ network = "tcp6" then
    Except.ok (Addr.tcpAddr network localIP port)
  else if network = "unix" ∨ network = "unixpacket" then
    Except.ok (Addr.unixAddr network localIP port)
  else if network = "kcp" ∨ network = "udp" ∨ network = "udp4" ∨ network = "udp6"
      ∨ network = "quic" then
    Except.ok (Addr.fakeAddr (if network = "quic" then "quic" else "kcp")
      (joinHostPort localIP port) localIP port)
  else
    Except.error "Invalid network config, refer to the following: tcp, tcp4, tcp6, unix, unixpacket, kcp or quic"

/-- PeerConfig.check (src/config.go lines 78–106). A no-op returning nil
once the checked flag is set. Otherwise it sets the flag, defaults Network
to tcp and LocalIP to 0.0.0.0, resolves the local address via newAddr
(on failure it returns that error, with localAddr left nil), builds the
listen FakeAddr, sets slowCometDuration to MaxInt64 unless the configured
threshold is positive, defaults the body codec name to json (the name of
the default JSON codec) and the redial interval to 100 ms. The Go method
mutates its receiver field by field and returns an error; the embedding
returns the error value together with the updated record, with the
sequential writes flattened into one record literal of identical net
effect (no later write reads an earlier one except through the
network/localIP bindings, exactly as in the source). -/
def check (p : PeerConfig) : Except String Unit × PeerConfig :=
  if p.checked then (Except.ok (), p)
  else
    let network := if p.Network = "" then "tcp" else p.Network
    let localIP := if p.LocalIP = "" then "0.0.0.0" else p.LocalIP
    match newAddr network localIP (toString p.LocalPort) with
    | Except.error e =>
      (Except.error e,
        { p with checked := true, Network := network, LocalIP := localIP,
                 localAddr := none })
    | Except.ok a =>
      (Except.ok (),
        { p with
          checked := true,
          Network := network,
          LocalIP := localIP,
          localAddr := some a,
          listenAddr := some (Addr.fakeAddr network
            (joinHostPort localIP (toString p.ListenPort)) localIP
            (toString p.ListenPort)),
          slowCometDuration :=
            if p.SlowCometDuration > 0 then p.SlowCometDuration else maxInt64,
          DefaultBodyCodec :=
            if p.DefaultBodyCodec = "" then "json" else p.DefaultBodyCodec,
          RedialInterval :=
            if p.RedialInterval ≤ 0 then redialIntervalDefault else p.RedialInterval })

/-- PeerConfig.ListenAddr (src/config.go lines 57–60): checks, then
returns the listener address (with the possibly updated receiver). -/
def ListenAddr (p : PeerConfig) : Option Addr × PeerConfig :=
  ((check p).2.listenAddr, (check p).2)

/-- PeerConfig.LocalAddr (src/config.go lines 63–66): checks, then returns
the local address (with the possibly updated receiver). -/
def LocalAddr (p : PeerConfig) : Option Addr × PeerConfig :=
  ((check p).2.localAddr, (check p).2)

/-- PeerConfig.Reload (src/config.go lines 69–76): after the bind step has
produced the reloaded configuration, clear the checked flag and re-run
check. -/
def Reload (pAfterBind : PeerConfig) : Except String Unit × PeerConfig :=
  check { pAfterBind with checked := false }

theorem check_checked (p : PeerConfig) : ((check p).2).checked = true := by
  by_cases h : p.checked
  · simp [check, h]
  · rw [check, if_neg (by simp [h])]
    dsimp only
    rcases hnew : newAddr (if p.Network = "" then "tcp" else p.Network)
        (if p.LocalIP = "" then "0.0.0.0" else p.LocalIP) (toString p.LocalPort) with e | a
    · rfl
    · rfl

/-- C9: PeerConfig.check is idempotent — for every config on which check
has returned once, every further call to check (including the calls made
inside ListenAddr and LocalAddr) returns nil and leaves every field of the
config unchanged; the checked flag stays set, and Reload re-checks only
because it first clears that flag (src/config.go lines 57–76, 78–106). -/
theorem c9_check_idempotent (p : PeerConfig) :
    check ((check p).2) = (Except.ok (), (check p).2)
    ∧ ListenAddr ((check p).2) = (((check p).2).listenAddr, (check p).2)
    ∧ LocalAddr ((check p).2) = (((check p).2).localAddr, (check p).2)
    ∧ ((check p).2).checked = true
    ∧ Reload ((check p).2) = check { (check p).2 with checked := false } := by
  have hc := check_checked p
  have hidem : check ((check p).2) = (Except.ok (), (check p).2) := by
    conv_lhs => rw [check]
    rw [if_pos hc]
  refine ⟨hidem, ?_, ?_, hc, rfl⟩
  · rw [ListenAddr, hidem]
  · rw [LocalAddr, hidem]

/-- C8: after PeerConfig.check succeeds on a not-yet-checked config, a
redial_interval left unset (zero) has become 100 ms (100000000 ns), and a
positive configured redial_interval is kept unchanged
(src/config.go lines 102–104). -/
theorem c8_redial_interval_default (p p2 : PeerConfig) (h0 : p.checked = false)
    (hok : check p = (Except.ok (), p2)) :
    (p.RedialInterval = 0 → p2.RedialInterval = 100000000)
    ∧ (0 < p.RedialInterval → p2.RedialInterval = p.RedialInterval) := by
  rw [check, if_neg (by simp [h0])] at hok
  dsimp only at hok
  rcases hnew : newAddr (if p.Network = "" then "tcp" else p.Network)
      (if p.LocalIP = "" then "0.0.0.0" else p.LocalIP) (toString p.LocalPort) with e | a
  · rw [hnew] at hok
    simp at hok
  · rw [hnew] at hok
    simp only [Prod.mk.injEq] at hok
    obtain ⟨-, hp2⟩ := hok
    subst hp2
    constructor
    · intro hz
      dsimp only
      rw [if_pos (by omega)]
      rfl
    · intro hp
      dsimp only
      rw [if_neg (by omega)]

/-- A fresh zero-valued configuration as a user would construct it, with
listen port 9090 (scenario S1's server config). -/
def freshConfig : PeerConfig :=
  { Network := "", LocalIP := "", LocalPort := 0, ListenPort := 9090,
    DialTimeout := 0, RedialTimes := 0, RedialInterval := 0,
    DefaultBodyCodec := "", DefaultSessionAge := 0, DefaultContextAge := 0,
    SlowCometDuration := 0, PrintDetail := false, CountTime := false,
    localAddr := none, listenAddr := none, slowCometDuration := 0, checked := false }

/-- C8 witness: checking a fresh config with unset redial_interval yields
the 100 ms default. -/
theorem c8_redial_interval_default_witness :
    freshConfig.checked = false ∧ ((check freshConfig).2).RedialInterval = 100000000 :=
  ⟨rfl, (c8_redial_interval_default freshConfig (check freshConfig).2 rfl rfl).1 rfl⟩

/-- C10: after PeerConfig.check succeeds on a not-yet-checked config, the
internal slow-operation threshold slowCometDuration equals the configured
SlowCometDuration when that is strictly positive, and equals the maximum
int64 value when SlowCometDuration is zero or negative
(src/config.go lines 95–98). -/
theorem c10_slow_comet_duration (p p2 : PeerConfig) (h0 : p.checked = false)
    (hok : check p = (Except.ok (), p2)) :
    (0 < p.SlowCometDuration → p2.slowCometDuration = p.SlowCometDuration)
    ∧ (p.SlowCometDuration ≤ 0 → p2.slowCometDuration = 9223372036854775807) := by
  rw [check, if_neg (by simp [h0])] at hok
  dsimp only at hok
  rcases hnew : newAddr (if p.Network = "" then "tcp" else p.Network)
      (if p.LocalIP = "" then "0.0.0.0" else p.LocalIP) (toString p.LocalPort) with e | a
  · rw [hnew] at hok
    simp at hok
  · rw [hnew] at hok
    simp only [Prod.mk.injEq] at hok
    obtain ⟨-, hp2⟩ := hok
    subst hp2
    constructor
    · intro hp
      dsimp only
      rw [if_pos (by omega)]
    · intro hz
      dsimp only
      rw [if_neg (by omega)]
      rfl

/-- C10 witness: checking a fresh config with zero SlowCometDuration sets
the internal threshold to MaxInt64. -/
theorem c10_slow_comet_duration_witness :
    freshConfig.checked = false
    ∧ ((check freshConfig).2).slowCometDuration = 9223372036854775807 :=
  ⟨rfl, (c10_slow_comet_duration freshConfig (check freshConfig).2 rfl rfl).2 (by decide)⟩

/-- A fresh configuration whose network is udp. -/
def udpConfig : PeerConfig :=
  { Network := "udp", LocalIP := "", LocalPort := 0, ListenPort := 0,
    DialTimeout := 0, RedialTimes := 0, RedialInterval := 0,
    DefaultBodyCodec := "", DefaultSessionAge := 0, DefaultContextAge := 0,
    SlowCometDuration := 0, PrintDetail := false, CountTime := false,
    localAddr := none, listenAddr := none, slowCometDuration := 0, checked := false }

/-- C6 counterexample: the network string udp lies outside the set
{tcp, tcp4, tcp6, unix, unixpacket, kcp, quic}, yet PeerConfig.check
succeeds on it and newAddr produces an address (a kcp FakeAddr), so
checking does not fail for every network outside that set
(src/config.go line 116). -/
theorem c6_counterexample :
    "udp" ∉ [ "tcp", "tcp4", "tcp6", "unix", "unixpacket", "kcp", "quic"]
    ∧ (check udpConfig).1 = Except.ok ()
    ∧ newAddr "udp" "0.0.0.0" "0"
        = Except.ok (Addr.fakeAddr "kcp" (joinHostPort "0.0.0.0" "0") "0.0.0.0" "0") :=
  ⟨by decide, rfl, rfl⟩

/-- C6 (amended): newAddr — and hence PeerConfig.check on a fresh config —
returns a non-nil error exactly for network strings outside the set
{tcp, tcp4, tcp6, unix, unixpacket, kcp, udp, udp4, udp6, quic}; for every
network inside that set it succeeds in producing an address (the udp
family is accepted and handled as kcp, src/config.go lines 108–133). -/
theorem c6_amended_network_validation (network ip port : String) :
    (network ∉ [ "tcp", "tcp4", "tcp6", "unix", "unixpacket", "kcp", "udp",
        "udp4", "udp6", "quic"] →
      ∃ e, newAddr network ip port = Except.error e)
    ∧ (network ∈ [ "tcp", "tcp4", "tcp6", "unix", "unixpacket", "kcp", "udp",
        "udp4", "udp6", "quic"] →
      ∃ a, newAddr network ip port = Except.ok a) := by
  constructor
  · intro h
    simp only [List.mem_cons, List.not_mem_nil, or_false, not_or] at h
    obtain ⟨h1, h2, h3, h4, h5, h6, h7, h8, h9, h10⟩ := h
    rw [newAddr, if_neg (by simp only [not_or]; exact ⟨h1, h2, h3⟩),
      if_neg (by simp only [not_or]; exact ⟨h4, h5⟩),
      if_neg (by simp only [not_or]; exact ⟨h6, h7, h8, h9, h10⟩)]
    exact ⟨_, rfl⟩
  · intro h
    fin_cases h <;> exact ⟨_, rfl⟩

/-- C6 amended-claim witness: a network outside the extended set fails,
one inside it succeeds. -/
theorem c6_amended_network_validation_witness :
    (∃ e, newAddr "foo" "0.0.0.0" "0" = Except.error e)
    ∧ (∃ a, newAddr "udp4" "0.0.0.0" "0" = Except.ok a) :=
  ⟨(c6_amended_network_validation "foo" "0.0.0.0" "0").1 (by decide),
   (c6_amended_network_validation "udp4" "0.0.0.0" "0").2 (by decide)⟩

/-! ## The Home.Test CALL handler of scenario S1 (the thriftproto test in
src/examples/simple/client.go). -/

/-- The Test argument/result record of the S1 scenario. -/
structure Test where
  Author : String
deriving DecidableEq, Repr

/-- PeekMeta: first value for the key in the ordered request meta, the
empty string when absent (a nil byte slice converts to the empty Go
string). -/
def peekMeta (meta : List (String × String)) (key : String) : String :=
  match meta.find? (fun kv => kv.1 == key) with
  | some kv => kv.2
  | none => ""

/-- Home.Test (src/examples/simple/client.go, thriftproto test section):
panics unless peek_meta(peer_id) equals the string 110, otherwise returns
{Author: arg.Author + "->OK"} and a nil status. `none` models the panic
(no normal return); a `none` status inside `some` is the nil = ok status. -/
def homeTest (meta : List (String × String)) (arg : Test) : Option (Test × Option Status) :=
  if peekMeta meta "peer_id" ≠ "110" then none
  else some ({ Author := arg.Author ++ "->OK" }, none)

/-- C7: the Home.Test CALL handler, given an argument with Author andeya
and request meta containing peer_id=110, returns a result whose Author is
andeya->OK with a nil (ok) status; when peek_meta(peer_id) is not 110 the
handler does not return normally (it panics). -/
theorem c7_home_test_handler (meta : List (String × String)) (arg : Test)
    (h : peekMeta meta "peer_id" ≠ "110") :
    homeTest [( "peer_id", "110")] { Author := "andeya" } =
      some ({ Author := "andeya->OK" }, none)
    ∧ homeTest meta arg = none := by
  constructor
  · rfl
  · rw [homeTest, if_pos h]

/-- C7 witness: the handler theorem evaluated on the S1 meta and on an
empty meta (where peek_meta yields the empty string). -/
theorem c7_home_test_handler_witness :
    homeTest [( "peer_id", "110")] { Author := "andeya" } =
      some ({ Author := "andeya->OK" }, none)
    ∧ homeTest [] { Author := "andeya" } = none :=
  c7_home_test_handler [] { Author := "andeya" } (by decide)

end ERPC
